import Mathlib

/-!
Verification of the quadrangle-construction logic of `tdsplotslit.py`.

The program's core is `mySlit.__init__`, which builds the vertex path of a
rectangle (width × height, centered at `anchor`, `resolution` points per
side) and rotates it about the center by the angle `theta`:

    lon_seq = longitude + np.linspace(0, width, resolution + 1)
    lat_seq = latitude + np.linspace(0, height, resolution + 1)
    lon = concatenate([lon_seq[:-1], repeat(lon_seq[-1], resolution),
                       flip(lon_seq[1:]), repeat(lon_seq[0], resolution)])
    lat = concatenate([repeat(lat_seq[0], resolution), lat_seq[:-1],
                       repeat(lat_seq[-1], resolution), flip(lat_seq[1:])])
    rot_matrix = [[cos theta, sin theta], [-sin theta, cos theta]]
    vertices = (rot_matrix @ (vertices - center)) + center

We model the angular quantities as real numbers already expressed in the
output vertex unit (the unit conversions are performed by an external
units library), with `theta` in radians as after the source's
`to_value(u.rad)` conversion.  Machine floats are modelled by exact reals.
-/

namespace Tdsplotslit

open List Real

/-- `np.linspace(0, w, n + 1)`: the `n + 1` evenly spaced values
`w * i / n` for `i = 0, …, n` (for `n = 0` numpy returns the single
value `0`, matching `w * 0 / 0 = 0` here). -/
noncomputable def linspace (w : ℝ) (n : ℕ) : List ℝ :=
  List.ofFn (fun i : Fin (n + 1) => w * (i : ℝ) / (n : ℝ))

/-- `lon_seq = longitude + np.linspace(0, width, resolution + 1)`. -/
noncomputable def lonSeq (longitude width : ℝ) (n : ℕ) : List ℝ :=
  (linspace width n).map (fun x => longitude + x)

/-- `lat_seq = latitude + np.linspace(0, height, resolution + 1)`. -/
noncomputable def latSeq (latitude height : ℝ) (n : ℕ) : List ℝ :=
  (linspace height n).map (fun x => latitude + x)

/-- The longitude components of the traced path:
`concatenate([lon_seq[:-1], repeat(lon_seq[-1], n), flip(lon_seq[1:]),
repeat(lon_seq[0], n)])`. -/
noncomputable def lonPath (longitude width : ℝ) (n : ℕ) : List ℝ :=
  let s := lonSeq longitude width n
  s.dropLast ++ List.replicate n (s.getLastD 0) ++
    (s.drop 1).reverse ++ List.replicate n (s.headD 0)

/-- The latitude components of the traced path:
`concatenate([repeat(lat_seq[0], n), lat_seq[:-1], repeat(lat_seq[-1], n),
flip(lat_seq[1:])])`. -/
noncomputable def latPath (latitude height : ℝ) (n : ℕ) : List ℝ :=
  let s := latSeq latitude height n
  List.replicate n (s.headD 0) ++ s.dropLast ++
    List.replicate n (s.getLastD 0) ++ (s.drop 1).reverse

/-- The unrotated polygon vertices: `np.array([lon, lat])` read as the
list of its columns, with `longitude = lon_c - width * 0.5` and
`latitude = lat_c - height * 0.5` as in the source. -/
noncomputable def unrotatedVertices (lon_c lat_c width height : ℝ) (n : ℕ) :
    List (ℝ × ℝ) :=
  List.zip (lonPath (lon_c - width * 0.5) width n)
    (latPath (lat_c - height * 0.5) height n)

/-- `rot_matrix = np.array([[np.cos(theta), np.sin(theta)],
[-np.sin(theta), np.cos(theta)]])`. -/
noncomputable def rot_matrix (θ : ℝ) : Matrix (Fin 2) (Fin 2) ℝ :=
  !![Real.cos θ, Real.sin θ; -Real.sin θ, Real.cos θ]

/-- One column of `rot_matrix @ (vertices - center.T) + center.T`:
the rotation of a single vertex about the center. -/
noncomputable def rotateAbout (θ lon_c lat_c : ℝ) (p : ℝ × ℝ) : ℝ × ℝ :=
  let v := (rot_matrix θ).mulVec ![p.1 - lon_c, p.2 - lat_c]
  (v 0 + lon_c, v 1 + lat_c)

/-- The full vertex list produced by `mySlit.__init__` and handed to
`Polygon.__init__`: the unrotated path with every vertex rotated about
the center. -/
noncomputable def mySlitVertices (lon_c lat_c width height θ : ℝ) (n : ℕ) :
    List (ℝ × ℝ) :=
  (unrotatedVertices lon_c lat_c width height n).map (rotateAbout θ lon_c lat_c)

/-- The spec's error taxonomy for quadrangle construction. -/
inductive SlitError where
  | InvalidDimension
  | InvalidResolution
  | UnitConversionError
deriving DecidableEq

/-- Quadrangle construction as seen by a caller, with the spec's error
taxonomy as error type.  `mySlit.__init__` contains no input validation
and no raise statement on any of its paths, so construction always
completes normally with the computed vertex list. -/
noncomputable def mySlitBuild (lon_c lat_c width height θ : ℝ) (n : ℕ) :
    Except SlitError (List (ℝ × ℝ)) :=
  Except.ok (mySlitVertices lon_c lat_c width height θ n)

/-! ### Helper lemmas: closed forms for the path segments -/

theorem zip_ofFn {α β : Type} {n : ℕ} (f : Fin n → α) (g : Fin n → β) :
    (List.ofFn f).zip (List.ofFn g) = List.ofFn (fun i => (f i, g i)) := by
  apply List.ext_getElem
  · simp
  · intro i h₁ h₂
    simp only [List.getElem_zip, List.getElem_ofFn]

theorem dropLast_ofFn_eq {α : Type} {n : ℕ} (f : Fin (n + 1) → α) :
    (List.ofFn f).dropLast = List.ofFn (fun i : Fin n => f i.castSucc) := by
  apply List.ext_getElem
  · simp
  · intro i h₁ h₂
    rw [List.getElem_dropLast, List.getElem_ofFn, List.getElem_ofFn]
    rfl

theorem reverse_drop_one_ofFn {α : Type} {n : ℕ} (f : Fin (n + 1) → α) :
    ((List.ofFn f).drop 1).reverse =
      List.ofFn (fun i : Fin n => f (Fin.rev i.castSucc)) := by
  apply List.ext_getElem
  · simp
  · intro i h₁ h₂
    have hi : i < n := by simpa using h₂
    rw [List.getElem_reverse, List.getElem_drop, List.getElem_ofFn,
      List.getElem_ofFn]
    congr 1
    ext
    simp only [List.length_drop, List.length_ofFn, Fin.val_rev,
      Fin.coe_castSucc]
    omega

theorem lonSeq_eq (L w : ℝ) (n : ℕ) :
    lonSeq L w n = List.ofFn (fun i : Fin (n + 1) => L + w * (i : ℝ) / n) := by
  unfold lonSeq linspace
  rw [List.map_ofFn]
  rfl

theorem latSeq_eq (B h : ℝ) (n : ℕ) :
    latSeq B h n = List.ofFn (fun i : Fin (n + 1) => B + h * (i : ℝ) / n) := by
  unfold latSeq linspace
  rw [List.map_ofFn]
  rfl

theorem latSeq_eq_lonSeq (B h : ℝ) (n : ℕ) : latSeq B h n = lonSeq B h n := rfl

theorem lonSeq_getLastD (L w : ℝ) {n : ℕ} (hn : n ≠ 0) :
    (lonSeq L w n).getLastD 0 = L + w := by
  have h1 : ((n : ℕ) : ℝ) ≠ 0 := Nat.cast_ne_zero.mpr hn
  have h2 : n < n + 1 := Nat.lt_succ_self n
  rw [lonSeq_eq, List.getLastD_eq_getLast?, List.getLast?_eq_getElem?,
    List.length_ofFn, Nat.add_sub_cancel, List.getElem?_ofFn]
  simp only [List.ofFnNthVal, dif_pos h2, Option.getD_some]
  rw [mul_div_assoc, div_self h1, mul_one]

theorem lonSeq_headD (L w : ℝ) (n : ℕ) : (lonSeq L w n).headD 0 = L := by
  rw [lonSeq_eq, List.ofFn_succ]
  simp

theorem lonSeq_dropLast (L w : ℝ) (n : ℕ) :
    (lonSeq L w n).dropLast =
      List.ofFn (fun i : Fin n => L + w * (i : ℝ) / n) := by
  rw [lonSeq_eq, dropLast_ofFn_eq]
  simp

theorem lonSeq_rev_drop (L w : ℝ) (n : ℕ) :
    ((lonSeq L w n).drop 1).reverse =
      List.ofFn (fun i : Fin n => L + w * ((n : ℝ) - (i : ℝ)) / n) := by
  rw [lonSeq_eq, reverse_drop_one_ofFn]
  congr 1
  funext i
  have h1 : ((Fin.castSucc i).rev : Fin (n + 1)).val = n - i.val := by
    simp [Fin.val_rev]
  rw [h1, Nat.cast_sub (le_of_lt i.isLt)]

theorem lonPath_eq (L w : ℝ) {n : ℕ} (hn : n ≠ 0) :
    lonPath L w n =
      List.ofFn (fun i : Fin n => L + w * (i : ℝ) / n) ++
      List.replicate n (L + w) ++
      List.ofFn (fun i : Fin n => L + w * ((n : ℝ) - (i : ℝ)) / n) ++
      List.replicate n L := by
  simp only [lonPath]
  rw [lonSeq_dropLast, lonSeq_getLastD L w hn, lonSeq_headD, lonSeq_rev_drop]

theorem latPath_eq (B h : ℝ) {n : ℕ} (hn : n ≠ 0) :
    latPath B h n =
      List.replicate n B ++
      List.ofFn (fun i : Fin n => B + h * (i : ℝ) / n) ++
      List.replicate n (B + h) ++
      List.ofFn (fun i : Fin n => B + h * ((n : ℝ) - (i : ℝ)) / n) := by
  simp only [latPath, latSeq_eq_lonSeq]
  rw [lonSeq_dropLast, lonSeq_getLastD B h hn, lonSeq_headD, lonSeq_rev_drop]

/-- Closed form for the unrotated vertex list: four edges of `n` points
each, in order bottom (left to right), right (bottom to top), top (right
to left), left (top to bottom). -/
theorem unrotated_eq (lon_c lat_c w h : ℝ) {n : ℕ} (hn : n ≠ 0) :
    unrotatedVertices lon_c lat_c w h n =
      List.ofFn (fun i : Fin n =>
        (lon_c - w * 0.5 + w * (i : ℝ) / n, lat_c - h * 0.5)) ++
      List.ofFn (fun i : Fin n =>
        (lon_c - w * 0.5 + w, lat_c - h * 0.5 + h * (i : ℝ) / n)) ++
      List.ofFn (fun i : Fin n =>
        (lon_c - w * 0.5 + w * ((n : ℝ) - (i : ℝ)) / n, lat_c - h * 0.5 + h)) ++
      List.ofFn (fun i : Fin n =>
        (lon_c - w * 0.5, lat_c - h * 0.5 + h * ((n : ℝ) - (i : ℝ)) / n)) := by
  unfold unrotatedVertices
  rw [lonPath_eq _ _ hn, latPath_eq _ _ hn]
  rw [← List.ofFn_const n (lon_c - w * 0.5 + w),
      ← List.ofFn_const n (lon_c - w * 0.5),
      ← List.ofFn_const n (lat_c - h * 0.5),
      ← List.ofFn_const n (lat_c - h * 0.5 + h)]
  rw [List.zip_append (by simp), List.zip_append (by simp),
      List.zip_append (by simp), zip_ofFn, zip_ofFn, zip_ofFn, zip_ofFn]

/-! ### Small arithmetic facts about the edge fractions -/

theorem frac_lt {w : ℝ} (hw : 0 < w) {n : ℕ} (hn : n ≠ 0) (i : Fin n) :
    w * (i : ℝ) / n < w := by
  have hnp : (0 : ℝ) < n := by exact_mod_cast Nat.pos_of_ne_zero hn
  have hi : (i : ℝ) < n := by exact_mod_cast i.isLt
  rw [div_lt_iff₀ hnp]
  nlinarith

theorem frac_pos {w : ℝ} (hw : 0 < w) {n : ℕ} (hn : n ≠ 0) (i : Fin n) :
    0 < w * ((n : ℝ) - (i : ℝ)) / n := by
  have hnp : (0 : ℝ) < n := by exact_mod_cast Nat.pos_of_ne_zero hn
  have hi : (i : ℝ) < n := by exact_mod_cast i.isLt
  apply div_pos _ hnp
  nlinarith

theorem frac_inj {w : ℝ} (hw : w ≠ 0) {n : ℕ} (hn : ((n : ℕ) : ℝ) ≠ 0)
    {i j : Fin n} (hij : w * (i : ℝ) / n = w * (j : ℝ) / n) : i = j := by
  field_simp at hij
  rcases hij with h | h
  · ext
    exact_mod_cast h
  · exact absurd h hw

theorem frac_inj' {w : ℝ} (hw : w ≠ 0) {n : ℕ} (hn : ((n : ℕ) : ℝ) ≠ 0)
    {i j : Fin n}
    (hij : w * ((n : ℝ) - (i : ℝ)) / n = w * ((n : ℝ) - (j : ℝ)) / n) :
    i = j := by
  have h2 : (i : ℝ) = (j : ℝ) := by
    field_simp at hij
    rcases hij with h | h
    · exact_mod_cast h
    · exact absurd h hw
  ext
  exact_mod_cast h2

/-! ### Rotation algebra -/

/-- The rotation step in scalar form. -/
theorem rotateAbout_eq (θ cx cy : ℝ) (p : ℝ × ℝ) :
    rotateAbout θ cx cy p =
      (Real.cos θ * (p.1 - cx) + Real.sin θ * (p.2 - cy) + cx,
       -Real.sin θ * (p.1 - cx) + Real.cos θ * (p.2 - cy) + cy) := by
  unfold rotateAbout rot_matrix
  simp [Matrix.mulVec, Matrix.dotProduct, Fin.sum_univ_two]

theorem rotateAbout_zero (cx cy : ℝ) (p : ℝ × ℝ) :
    rotateAbout 0 cx cy p = p := by
  rw [rotateAbout_eq]
  simp

theorem rotateAbout_neg_cancel (θ cx cy : ℝ) (p : ℝ × ℝ) :
    rotateAbout (-θ) cx cy (rotateAbout θ cx cy p) = p := by
  obtain ⟨x, y⟩ := p
  rw [rotateAbout_eq, rotateAbout_eq]
  simp only [Real.cos_neg, Real.sin_neg, Prod.mk.injEq]
  constructor
  · linear_combination (x - cx) * Real.cos_sq_add_sin_sq θ
  · linear_combination (y - cy) * Real.cos_sq_add_sin_sq θ

/-! ### Lengths -/

theorem length_lonPath (L w : ℝ) (n : ℕ) : (lonPath L w n).length = 4 * n := by
  simp [lonPath, lonSeq, linspace]
  omega

theorem length_latPath (B h : ℝ) (n : ℕ) : (latPath B h n).length = 4 * n := by
  simp [latPath, latSeq, linspace]
  omega

theorem length_unrotatedVertices (lon_c lat_c w h : ℝ) (n : ℕ) :
    (unrotatedVertices lon_c lat_c w h n).length = 4 * n := by
  simp [unrotatedVertices, List.length_zip, length_lonPath, length_latPath]

theorem length_mySlitVertices (lon_c lat_c w h θ : ℝ) (n : ℕ) :
    (mySlitVertices lon_c lat_c w h θ n).length = 4 * n := by
  simp [mySlitVertices, length_unrotatedVertices]

/-! ### The unrotated path, vertex by vertex -/

theorem unrot_get_bottom (lon_c lat_c w h : ℝ) {n i : ℕ} (hn : n ≠ 0)
    (hi : i < n) :
    (unrotatedVertices lon_c lat_c w h n)[i]? =
      some (lon_c - w / 2 + w * (i : ℝ) / n, lat_c - h / 2) := by
  rw [unrotated_eq lon_c lat_c w h hn,
    List.getElem?_append_left
      (by simp only [List.length_append, List.length_ofFn]; omega),
    List.getElem?_append_left
      (by simp only [List.length_append, List.length_ofFn]; omega),
    List.getElem?_append_left (by simp only [List.length_ofFn]; omega),
    List.getElem?_ofFn]
  simp only [List.ofFnNthVal, dif_pos hi, Option.some.injEq, Prod.mk.injEq]
  constructor <;> (norm_num; try ring)

theorem unrot_get_right (lon_c lat_c w h : ℝ) {n i : ℕ} (hn : n ≠ 0)
    (h1 : n ≤ i) (h2 : i < 2 * n) :
    (unrotatedVertices lon_c lat_c w h n)[i]? =
      some (lon_c + w / 2, lat_c - h / 2 + h * ((i : ℝ) - n) / n) := by
  have hj : i - n < n := by omega
  have hcast : ((i - n : ℕ) : ℝ) = (i : ℝ) - (n : ℝ) := by
    rw [Nat.cast_sub h1]
  rw [unrotated_eq lon_c lat_c w h hn,
    List.getElem?_append_left
      (by simp only [List.length_append, List.length_ofFn]; omega),
    List.getElem?_append_left
      (by simp only [List.length_append, List.length_ofFn]; omega),
    List.getElem?_append_right (by simp only [List.length_ofFn]; omega),
    List.getElem?_ofFn]
  simp only [List.length_ofFn, List.ofFnNthVal, dif_pos hj,
    Option.some.injEq, Prod.mk.injEq]
  rw [hcast]
  constructor <;> (norm_num; try ring)

theorem unrot_get_top (lon_c lat_c w h : ℝ) {n i : ℕ} (hn : n ≠ 0)
    (h1 : 2 * n ≤ i) (h2 : i < 3 * n) :
    (unrotatedVertices lon_c lat_c w h n)[i]? =
      some (lon_c - w / 2 + w * (3 * (n : ℝ) - i) / n, lat_c + h / 2) := by
  have hj : i - 2 * n < n := by omega
  have hcast : ((i - 2 * n : ℕ) : ℝ) = (i : ℝ) - 2 * (n : ℝ) := by
    rw [Nat.cast_sub h1]
    push_cast
    ring
  rw [unrotated_eq lon_c lat_c w h hn,
    List.getElem?_append_left
      (by simp only [List.length_append, List.length_ofFn]; omega),
    List.getElem?_append_right
      (by simp only [List.length_append, List.length_ofFn]; omega),
    List.getElem?_ofFn]
  have hidx : i - (List.ofFn (fun i : Fin n =>
      (lon_c - w * 0.5 + w * (i : ℝ) / n, lat_c - h * 0.5)) ++
      List.ofFn (fun i : Fin n =>
      (lon_c - w * 0.5 + w, lat_c - h * 0.5 + h * (i : ℝ) / n))).length
      = i - 2 * n := by
    simp only [List.length_append, List.length_ofFn]
    omega
  rw [hidx]
  simp only [List.ofFnNthVal, dif_pos hj, Option.some.injEq, Prod.mk.injEq]
  rw [hcast]
  constructor <;> (norm_num; try ring)

theorem unrot_get_left (lon_c lat_c w h : ℝ) {n i : ℕ} (hn : n ≠ 0)
    (h1 : 3 * n ≤ i) (h2 : i < 4 * n) :
    (unrotatedVertices lon_c lat_c w h n)[i]? =
      some (lon_c - w / 2, lat_c - h / 2 + h * (4 * (n : ℝ) - i) / n) := by
  have hj : i - 3 * n < n := by omega
  have hcast : ((i - 3 * n : ℕ) : ℝ) = (i : ℝ) - 3 * (n : ℝ) := by
    rw [Nat.cast_sub h1]
    push_cast
    ring
  rw [unrotated_eq lon_c lat_c w h hn,
    List.getElem?_append_right
      (by simp only [List.length_append, List.length_ofFn]; omega),
    List.getElem?_ofFn]
  have hidx : i - ((List.ofFn (fun i : Fin n =>
      (lon_c - w * 0.5 + w * (i : ℝ) / n, lat_c - h * 0.5)) ++
      List.ofFn (fun i : Fin n =>
      (lon_c - w * 0.5 + w, lat_c - h * 0.5 + h * (i : ℝ) / n)) ++
      List.ofFn (fun i : Fin n =>
      (lon_c - w * 0.5 + w * ((n : ℝ) - (i : ℝ)) / n, lat_c - h * 0.5 + h))).length)
      = i - 3 * n := by
    simp only [List.length_append, List.length_ofFn]
    omega
  rw [hidx]
  simp only [List.ofFnNthVal, dif_pos hj, Option.some.injEq, Prod.mk.injEq]
  rw [hcast]
  constructor <;> (norm_num; try ring)

/-! ### Sums of the path coordinates -/

theorem sum_lonPath (L w : ℝ) {n : ℕ} (hn : n ≠ 0) :
    (lonPath L w n).sum = 4 * n * L + 2 * n * w := by
  have h1 : ((n : ℕ) : ℝ) ≠ 0 := Nat.cast_ne_zero.mpr hn
  rw [lonPath_eq L w hn, List.sum_append, List.sum_append, List.sum_append,
    List.sum_replicate, List.sum_replicate, List.sum_ofFn, List.sum_ofFn,
    nsmul_eq_mul, nsmul_eq_mul]
  have key : (∑ i : Fin n, (L + w * (i : ℝ) / n)) +
      (∑ i : Fin n, (L + w * ((n : ℝ) - (i : ℝ)) / n)) = n * (2 * L + w) := by
    rw [← Finset.sum_add_distrib]
    have hterm : ∀ i : Fin n, (L + w * (i : ℝ) / n) +
        (L + w * ((n : ℝ) - (i : ℝ)) / n) = 2 * L + w := by
      intro i
      field_simp
      ring
    rw [Finset.sum_congr rfl (fun i _ => hterm i), Finset.sum_const,
      Finset.card_univ, Fintype.card_fin, nsmul_eq_mul]
  linear_combination key

theorem sum_latPath (B h : ℝ) {n : ℕ} (hn : n ≠ 0) :
    (latPath B h n).sum = 4 * n * B + 2 * n * h := by
  have h1 : ((n : ℕ) : ℝ) ≠ 0 := Nat.cast_ne_zero.mpr hn
  rw [latPath_eq B h hn, List.sum_append, List.sum_append, List.sum_append,
    List.sum_replicate, List.sum_replicate, List.sum_ofFn, List.sum_ofFn,
    nsmul_eq_mul, nsmul_eq_mul]
  have key : (∑ i : Fin n, (B + h * (i : ℝ) / n)) +
      (∑ i : Fin n, (B + h * ((n : ℝ) - (i : ℝ)) / n)) = n * (2 * B + h) := by
    rw [← Finset.sum_add_distrib]
    have hterm : ∀ i : Fin n, (B + h * (i : ℝ) / n) +
        (B + h * ((n : ℝ) - (i : ℝ)) / n) = 2 * B + h := by
      intro i
      field_simp
      ring
    rw [Finset.sum_congr rfl (fun i _ => hterm i), Finset.sum_const,
      Finset.card_univ, Fintype.card_fin, nsmul_eq_mul]
  linear_combination key

theorem map_fst_unrotated (lon_c lat_c w h : ℝ) (n : ℕ) :
    (unrotatedVertices lon_c lat_c w h n).map Prod.fst =
      lonPath (lon_c - w * 0.5) w n := by
  unfold unrotatedVertices
  apply List.map_fst_zip
  rw [length_lonPath, length_latPath]

theorem map_snd_unrotated (lon_c lat_c w h : ℝ) (n : ℕ) :
    (unrotatedVertices lon_c lat_c w h n).map Prod.snd =
      latPath (lat_c - h * 0.5) h n := by
  unfold unrotatedVertices
  apply List.map_snd_zip
  rw [length_lonPath, length_latPath]

theorem sum_map_affine (a b c : ℝ) (l : List (ℝ × ℝ)) :
    (l.map (fun p => a * p.1 + b * p.2 + c)).sum =
      a * (l.map Prod.fst).sum + b * (l.map Prod.snd).sum + l.length * c := by
  induction l with
  | nil => simp
  | cons p t ih =>
    simp only [List.map_cons, List.sum_cons, List.length_cons, ih]
    push_cast
    ring

/-! ### The unrotated path has no duplicated vertex -/

theorem unrotated_nodup (lon_c lat_c w h : ℝ) {n : ℕ}
    (hw : 0 < w) (hh : 0 < h) (hn : n ≠ 0) :
    (unrotatedVertices lon_c lat_c w h n).Nodup := by
  have hwne : w ≠ 0 := ne_of_gt hw
  have hhne : h ≠ 0 := ne_of_gt hh
  have hnR : ((n : ℕ) : ℝ) ≠ 0 := Nat.cast_ne_zero.mpr hn
  rw [unrotated_eq lon_c lat_c w h hn]
  simp only [List.nodup_append, List.disjoint_append_left, List.nodup_ofFn]
  refine ⟨⟨⟨?_, ?_, ?_⟩, ?_, ?_, ?_⟩, ?_, ⟨?_, ?_⟩, ?_⟩
  · -- bottom edge is injective
    intro i j hij
    rw [Prod.mk.injEq] at hij
    exact frac_inj hwne hnR (add_left_cancel hij.1)
  · -- right edge is injective
    intro i j hij
    rw [Prod.mk.injEq] at hij
    exact frac_inj hhne hnR (add_left_cancel hij.2)
  · -- bottom and right edges are disjoint
    intro p hp hq
    rw [List.mem_ofFn, Set.mem_range] at hp hq
    obtain ⟨i, hi⟩ := hp
    obtain ⟨j, hj⟩ := hq
    have hpq := hi.trans hj.symm
    rw [Prod.mk.injEq] at hpq
    have := frac_lt hw hn i
    linarith [hpq.1]
  · -- top edge is injective
    intro i j hij
    rw [Prod.mk.injEq] at hij
    exact frac_inj' hwne hnR (add_left_cancel hij.1)
  · -- bottom and top edges are disjoint
    intro p hp hq
    rw [List.mem_ofFn, Set.mem_range] at hp hq
    obtain ⟨i, hi⟩ := hp
    obtain ⟨j, hj⟩ := hq
    have hpq := hi.trans hj.symm
    rw [Prod.mk.injEq] at hpq
    linarith [hpq.2]
  · -- right and top edges are disjoint
    intro p hp hq
    rw [List.mem_ofFn, Set.mem_range] at hp hq
    obtain ⟨i, hi⟩ := hp
    obtain ⟨j, hj⟩ := hq
    have hpq := hi.trans hj.symm
    rw [Prod.mk.injEq] at hpq
    have := frac_lt hh hn i
    linarith [hpq.2]
  · -- left edge is injective
    intro i j hij
    rw [Prod.mk.injEq] at hij
    exact frac_inj' hhne hnR (add_left_cancel hij.2)
  · -- bottom and left edges are disjoint
    intro p hp hq
    rw [List.mem_ofFn, Set.mem_range] at hp hq
    obtain ⟨i, hi⟩ := hp
    obtain ⟨j, hj⟩ := hq
    have hpq := hi.trans hj.symm
    rw [Prod.mk.injEq] at hpq
    have := frac_pos hh hn j
    linarith [hpq.2]
  · -- right and left edges are disjoint
    intro p hp hq
    rw [List.mem_ofFn, Set.mem_range] at hp hq
    obtain ⟨i, hi⟩ := hp
    obtain ⟨j, hj⟩ := hq
    have hpq := hi.trans hj.symm
    rw [Prod.mk.injEq] at hpq
    linarith [hpq.1]
  · -- top and left edges are disjoint
    intro p hp hq
    rw [List.mem_ofFn, Set.mem_range] at hp hq
    obtain ⟨i, hi⟩ := hp
    obtain ⟨j, hj⟩ := hq
    have hpq := hi.trans hj.symm
    rw [Prod.mk.injEq] at hpq
    have := frac_pos hw hn i
    linarith [hpq.1]

/-! ### The glue code of `main` -/

/-- `main`, lines 113–115:
`radec_slit = [Angle(hdr['RA'] + ' hours'), Angle(hdr['DEC'] + ' degrees')]`
followed by `radec_slit[1] += pargs.ra_corr * u.arcsec` and
`radec_slit[0] += pargs.dec_corr * u.arcsec`.  Angles are modelled in
degrees, corrections in arcseconds (1 arcsec = 1/3600 deg); index 0 is the
right-ascension component, index 1 the declination component. -/
noncomputable def correctedRadec (ra dec raCorr decCorr : ℝ) : ℝ × ℝ :=
  (ra + decCorr / 3600, dec + raCorr / 3600)

/-- The arguments of one `mySlit(...)` construction in `main`, with
width and height converted to degrees (1 arcsec = 1/3600 deg,
1 arcmin = 1/60 deg) and the rotation angle in degrees. -/
structure SlitCall where
  center : ℝ × ℝ
  widthDeg : ℝ
  heightDeg : ℝ
  thetaDeg : ℝ

/-- `main`, lines 123–131: the two `mySlit` constructions —
`mySlit(radec_slit, 1.0*u.arcsec, 3.0*u.arcmin, theta=PA*u.deg, ...)` and
`mySlit(radec_slit, 0.1*u.arcsec, 0.1*u.arcmin, theta=(PA+90)*u.deg, ...)`. -/
noncomputable def mainSlitCalls (radec : ℝ × ℝ) (PA : ℝ) : List SlitCall :=
  [⟨radec, 1.0 / 3600, 3.0 / 60, PA⟩, ⟨radec, 0.1 / 3600, 0.1 / 60, PA + 90⟩]

/-- Spec-side definition, following the spec's words: the conventional
counter-clockwise rotation matrix `[[cos t, −sin t], [sin t, cos t]]`. -/
noncomputable def stdRotMatrix (t : ℝ) : Matrix (Fin 2) (Fin 2) ℝ :=
  !![Real.cos t, -Real.sin t; Real.sin t, Real.cos t]

/-- Spec-side definition: rotation about the center under the standard
counter-clockwise convention. -/
noncomputable def stdRotateAbout (t cx cy : ℝ) (p : ℝ × ℝ) : ℝ × ℝ :=
  let v := (stdRotMatrix t).mulVec ![p.1 - cx, p.2 - cy]
  (v 0 + cx, v 1 + cy)

/-! ### Claims -/

/-- C2, counterexample: construction with width = 0, or with height = −1,
does not fail with `InvalidDimension`, and construction with
resolution = 0 does not fail with `InvalidResolution`: the builder
performs no input validation and always returns a vertex list. -/
theorem claim2_counterexample :
    mySlitBuild 10 20 0 4 0 100 ≠ Except.error SlitError.InvalidDimension ∧
    mySlitBuild 10 20 2 (-1) 0 100 ≠ Except.error SlitError.InvalidDimension ∧
    mySlitBuild 10 20 2 4 0 0 ≠ Except.error SlitError.InvalidResolution := by
  refine ⟨?_, ?_, ?_⟩ <;> simp [mySlitBuild]

/-- C2, amended: quadrangle construction never fails — `mySlit.__init__`
validates nothing, and for every center, width, height (including 0 and
−1), angle and resolution (including 0) it succeeds with a vertex path of
exactly `4 * resolution` points (an empty path when resolution = 0, a
degenerate one when width or height is non-positive). -/
theorem claim2_amended (lon_c lat_c w h θ : ℝ) (n : ℕ) :
    ∃ vs : List (ℝ × ℝ), mySlitBuild lon_c lat_c w h θ n = Except.ok vs ∧
      vs.length = 4 * n :=
  ⟨mySlitVertices lon_c lat_c w h θ n, rfl,
    length_mySlitVertices lon_c lat_c w h θ n⟩

/-- C8: the implementation's rotation matrix `[[cos θ, sin θ],
[−sin θ, cos θ]]` is the standard counter-clockwise rotation matrix
evaluated at `−θ`, and hence the builder's rotation step by `θ` coincides
with a standard-convention rotation by `−θ` about the center. -/
theorem claim8_convention (θ : ℝ) :
    rot_matrix θ = stdRotMatrix (-θ) ∧
    ∀ (cx cy : ℝ) (p : ℝ × ℝ),
      rotateAbout θ cx cy p = stdRotateAbout (-θ) cx cy p := by
  have hm : rot_matrix θ = stdRotMatrix (-θ) := by
    unfold rot_matrix stdRotMatrix
    rw [Real.cos_neg, Real.sin_neg, neg_neg]
  refine ⟨hm, ?_⟩
  intro cx cy p
  unfold rotateAbout stdRotateAbout
  rw [hm]

/-- C9: in `main`, the `--ra-corr` offset is added to the declination
component (index 1) of the slit center and the `--dec-corr` offset is
added to the right-ascension component (index 0) — the two corrections
are applied to swapped coordinates relative to their names. -/
theorem claim9_corrections_swapped (ra dec raCorr decCorr : ℝ) :
    (correctedRadec ra dec raCorr decCorr).1 = ra + decCorr / 3600 ∧
    (correctedRadec ra dec raCorr decCorr).2 = dec + raCorr / 3600 :=
  ⟨rfl, rfl⟩

/-- C10: `main` constructs exactly two quadrangles, both centered at the
corrected slit position; the slit uses rotation angle `PA` (degrees from
the spectrum header's `POSANG`) and the fiducial marker uses `PA + 90`. -/
theorem claim10_two_quadrangles (radec : ℝ × ℝ) (PA : ℝ) :
    (mainSlitCalls radec PA).length = 2 ∧
    (∀ c ∈ mainSlitCalls radec PA, c.center = radec) ∧
    (mainSlitCalls radec PA).map SlitCall.thetaDeg = [PA, PA + 90] := by
  refine ⟨rfl, ?_, rfl⟩
  intro c hc
  simp only [mainSlitCalls, List.mem_cons, List.not_mem_nil, or_false] at hc
  rcases hc with heq | heq <;> subst heq <;> rfl

/-- C1: for every valid spec (positive width and height, resolution ≥ 1),
each output vertex is the corresponding unrotated boundary vertex
transformed by `v' = R(θ)·(v − center) + center` with
`R(θ) = [[cos θ, sin θ], [−sin θ, cos θ]]` acting on column vectors,
`θ` being the rotation angle in radians. -/
theorem claim1_rotation_formula (lon_c lat_c w h θ : ℝ) (n : ℕ)
    (_hw : 0 < w) (_hh : 0 < h) (_hres : 1 ≤ n) :
    ∀ i : ℕ,
      (mySlitVertices lon_c lat_c w h θ n)[i]? =
        ((unrotatedVertices lon_c lat_c w h n)[i]?).map (fun v =>
          (Real.cos θ * (v.1 - lon_c) + Real.sin θ * (v.2 - lat_c) + lon_c,
           -Real.sin θ * (v.1 - lon_c) + Real.cos θ * (v.2 - lat_c) + lat_c)) := by
  intro i
  unfold mySlitVertices
  rw [List.getElem?_map]
  congr 1
  funext v
  exact rotateAbout_eq θ lon_c lat_c v

theorem claim1_rotation_formula_witness :
    (0 : ℝ) < 2 ∧ (0 : ℝ) < 4 ∧ 1 ≤ 1 ∧
    (mySlitVertices 10 20 2 4 1 1)[0]? =
      ((unrotatedVertices 10 20 2 4 1)[0]?).map (fun v =>
        (Real.cos 1 * (v.1 - 10) + Real.sin 1 * (v.2 - 20) + 10,
         -Real.sin 1 * (v.1 - 10) + Real.cos 1 * (v.2 - 20) + 20)) :=
  ⟨by norm_num, by norm_num, le_refl 1,
    claim1_rotation_formula 10 20 2 4 1 1 (by norm_num) (by norm_num)
      (le_refl 1) 0⟩

/-- C5: building the quadrangle with rotation `θ` and then applying the
builder's rotation step with angle `−θ` about the same center yields
exactly the vertex path built with rotation 0 (equality is exact here
since reals replace floats in the model). -/
theorem claim5_round_trip (lon_c lat_c w h θ : ℝ) (n : ℕ)
    (_hw : 0 < w) (_hh : 0 < h) (_hres : 1 ≤ n) :
    (mySlitVertices lon_c lat_c w h θ n).map (rotateAbout (-θ) lon_c lat_c) =
      mySlitVertices lon_c lat_c w h 0 n := by
  unfold mySlitVertices
  rw [List.map_map]
  have hcomp : rotateAbout (-θ) lon_c lat_c ∘ rotateAbout θ lon_c lat_c =
      rotateAbout 0 lon_c lat_c := by
    funext p
    rw [Function.comp_apply, rotateAbout_neg_cancel, rotateAbout_zero]
  rw [hcomp]

theorem claim5_round_trip_witness :
    (0 : ℝ) < 2 ∧ (0 : ℝ) < 4 ∧ 1 ≤ 1 ∧
    (mySlitVertices 10 20 2 4 1 1).map (rotateAbout (-1) 10 20) =
      mySlitVertices 10 20 2 4 0 1 :=
  ⟨by norm_num, by norm_num, le_refl 1,
    claim5_round_trip 10 20 2 4 1 1 (by norm_num) (by norm_num) (le_refl 1)⟩

/-- C6: for every valid spec and every rotation angle `θ`, the centroid
(arithmetic mean) of the `4 * resolution` output vertices is the
quadrangle's center. -/
theorem claim6_centroid (lon_c lat_c w h θ : ℝ) (n : ℕ)
    (_hw : 0 < w) (_hh : 0 < h) (hres : 1 ≤ n) :
    ((mySlitVertices lon_c lat_c w h θ n).map Prod.fst).sum / (4 * n) = lon_c ∧
    ((mySlitVertices lon_c lat_c w h θ n).map Prod.snd).sum / (4 * n) = lat_c := by
  have hn : n ≠ 0 := by omega
  have hnR : ((n : ℕ) : ℝ) ≠ 0 := Nat.cast_ne_zero.mpr hn
  have hfst : (mySlitVertices lon_c lat_c w h θ n).map Prod.fst =
      (unrotatedVertices lon_c lat_c w h n).map (fun p =>
        Real.cos θ * p.1 + Real.sin θ * p.2 +
          (lon_c - Real.cos θ * lon_c - Real.sin θ * lat_c)) := by
    unfold mySlitVertices
    rw [List.map_map]
    congr 1
    funext p
    rw [Function.comp_apply, rotateAbout_eq]
    ring
  have hsnd : (mySlitVertices lon_c lat_c w h θ n).map Prod.snd =
      (unrotatedVertices lon_c lat_c w h n).map (fun p =>
        (-Real.sin θ) * p.1 + Real.cos θ * p.2 +
          (lat_c + Real.sin θ * lon_c - Real.cos θ * lat_c)) := by
    unfold mySlitVertices
    rw [List.map_map]
    congr 1
    funext p
    rw [Function.comp_apply, rotateAbout_eq]
    ring
  constructor
  · rw [hfst, sum_map_affine, map_fst_unrotated, map_snd_unrotated,
      sum_lonPath _ _ hn, sum_latPath _ _ hn, length_unrotatedVertices]
    push_cast
    field_simp
    ring
  · rw [hsnd, sum_map_affine, map_fst_unrotated, map_snd_unrotated,
      sum_lonPath _ _ hn, sum_latPath _ _ hn, length_unrotatedVertices]
    push_cast
    field_simp
    ring

theorem claim6_centroid_witness :
    (0 : ℝ) < 2 ∧ (0 : ℝ) < 4 ∧ 1 ≤ 1 ∧
    ((mySlitVertices 10 20 2 4 1 1).map Prod.fst).sum / (4 * 1) = 10 := by
  refine ⟨by norm_num, by norm_num, le_refl 1, ?_⟩
  have h1 := (claim6_centroid 10 20 2 4 1 1 (by norm_num) (by norm_num)
    (le_refl 1)).1
  exact_mod_cast h1

/-- C3: for every valid spec (resolution ≥ 1), the vertex path has exactly
`4 * resolution` points and, before rotation, traces the rectangle
boundary starting at the bottom-left corner — right along the bottom edge
(indices `0 ≤ i < n`), up the right edge (`n ≤ i < 2n`), left along the
top edge (`2n ≤ i < 3n`), down the left edge (`3n ≤ i < 4n`) — with no
vertex (in particular no corner) duplicated. -/
theorem claim3_path_shape (lon_c lat_c w h : ℝ) (n : ℕ)
    (hw : 0 < w) (hh : 0 < h) (hres : 1 ≤ n) :
    (∀ θ : ℝ, (mySlitVertices lon_c lat_c w h θ n).length = 4 * n) ∧
    (∀ i : ℕ, i < n →
      (unrotatedVertices lon_c lat_c w h n)[i]? =
        some (lon_c - w / 2 + w * (i : ℝ) / n, lat_c - h / 2)) ∧
    (∀ i : ℕ, n ≤ i → i < 2 * n →
      (unrotatedVertices lon_c lat_c w h n)[i]? =
        some (lon_c + w / 2, lat_c - h / 2 + h * ((i : ℝ) - n) / n)) ∧
    (∀ i : ℕ, 2 * n ≤ i → i < 3 * n →
      (unrotatedVertices lon_c lat_c w h n)[i]? =
        some (lon_c - w / 2 + w * (3 * (n : ℝ) - i) / n, lat_c + h / 2)) ∧
    (∀ i : ℕ, 3 * n ≤ i → i < 4 * n →
      (unrotatedVertices lon_c lat_c w h n)[i]? =
        some (lon_c - w / 2, lat_c - h / 2 + h * (4 * (n : ℝ) - i) / n)) ∧
    (unrotatedVertices lon_c lat_c w h n).Nodup := by
  have hn : n ≠ 0 := by omega
  exact ⟨fun θ => length_mySlitVertices lon_c lat_c w h θ n,
    fun i hi => unrot_get_bottom lon_c lat_c w h hn hi,
    fun i h1 h2 => unrot_get_right lon_c lat_c w h hn h1 h2,
    fun i h1 h2 => unrot_get_top lon_c lat_c w h hn h1 h2,
    fun i h1 h2 => unrot_get_left lon_c lat_c w h hn h1 h2,
    unrotated_nodup lon_c lat_c w h hw hh hn⟩

theorem claim3_path_shape_witness :
    (0 : ℝ) < 2 ∧ (0 : ℝ) < 4 ∧ 1 ≤ 1 ∧
    (mySlitVertices 10 20 2 4 0 1).length = 4 * 1 ∧
    (unrotatedVertices 10 20 2 4 1).Nodup := by
  have hc := claim3_path_shape 10 20 2 4 1 (by norm_num) (by norm_num)
    (le_refl 1)
  exact ⟨by norm_num, by norm_num, le_refl 1, hc.1 0, hc.2.2.2.2.2⟩

/-- C4: with `θ = 0`, the vertices at positions 0, n, 2n, 3n are the
rectangle's four corners `(lon−w/2, lat−h/2)`, `(lon+w/2, lat−h/2)`,
`(lon+w/2, lat+h/2)`, `(lon−w/2, lat+h/2)`, in that cyclic order. -/
theorem claim4_corners (lon_c lat_c w h : ℝ) (n : ℕ)
    (_hw : 0 < w) (_hh : 0 < h) (hres : 1 ≤ n) :
    (mySlitVertices lon_c lat_c w h 0 n)[0]? =
      some (lon_c - w / 2, lat_c - h / 2) ∧
    (mySlitVertices lon_c lat_c w h 0 n)[n]? =
      some (lon_c + w / 2, lat_c - h / 2) ∧
    (mySlitVertices lon_c lat_c w h 0 n)[2 * n]? =
      some (lon_c + w / 2, lat_c + h / 2) ∧
    (mySlitVertices lon_c lat_c w h 0 n)[3 * n]? =
      some (lon_c - w / 2, lat_c + h / 2) := by
  have hn : n ≠ 0 := by omega
  have hnR : ((n : ℕ) : ℝ) ≠ 0 := Nat.cast_ne_zero.mpr hn
  unfold mySlitVertices
  refine ⟨?_, ?_, ?_, ?_⟩
  · rw [List.getElem?_map, unrot_get_bottom lon_c lat_c w h hn (by omega)]
    simp [rotateAbout_zero]
  · rw [List.getElem?_map, unrot_get_right lon_c lat_c w h hn (le_refl n)
      (by omega)]
    simp [rotateAbout_zero]
  · rw [List.getElem?_map, unrot_get_top lon_c lat_c w h hn (le_refl (2 * n))
      (by omega)]
    simp only [Option.map_some', rotateAbout_zero, Option.some.injEq,
      Prod.mk.injEq]
    constructor
    · push_cast
      field_simp
      ring
    · trivial
  · rw [List.getElem?_map, unrot_get_left lon_c lat_c w h hn (le_refl (3 * n))
      (by omega)]
    simp only [Option.map_some', rotateAbout_zero, Option.some.injEq,
      Prod.mk.injEq]
    constructor
    · trivial
    · push_cast
      field_simp
      ring

theorem claim4_corners_witness :
    (0 : ℝ) < 2 ∧ (0 : ℝ) < 4 ∧ 1 ≤ 1 ∧
    (mySlitVertices 10 20 2 4 0 1)[0]? = some (10 - 2 / 2, 20 - 4 / 2) :=
  ⟨by norm_num, by norm_num, le_refl 1,
    (claim4_corners 10 20 2 4 1 (by norm_num) (by norm_num) (le_refl 1)).1⟩

/-- C7: resolution 1 produces exactly 4 vertices — the plain rectangle
corners — and in particular center (10, 20), width 2, height 4, θ = 0,
resolution 1 yields `[(9, 18), (11, 18), (11, 22), (9, 22)]`. -/
theorem claim7_resolution_one :
    (∀ lon_c lat_c w h θ : ℝ,
      (mySlitVertices lon_c lat_c w h θ 1).length = 4) ∧
    (∀ lon_c lat_c w h : ℝ, unrotatedVertices lon_c lat_c w h 1 =
      [(lon_c - w / 2, lat_c - h / 2), (lon_c + w / 2, lat_c - h / 2),
       (lon_c + w / 2, lat_c + h / 2), (lon_c - w / 2, lat_c + h / 2)]) ∧
    mySlitVertices 10 20 2 4 0 1 = [(9, 18), (11, 18), (11, 22), (9, 22)] := by
  have hcorners : ∀ lon_c lat_c w h : ℝ, unrotatedVertices lon_c lat_c w h 1 =
      [(lon_c - w / 2, lat_c - h / 2), (lon_c + w / 2, lat_c - h / 2),
       (lon_c + w / 2, lat_c + h / 2), (lon_c - w / 2, lat_c + h / 2)] := by
    intro lon_c lat_c w h
    rw [unrotated_eq lon_c lat_c w h one_ne_zero]
    simp [List.ofFn_succ]
    norm_num
    exact ⟨⟨by ring, by ring⟩, ⟨by ring, by ring⟩, ⟨by ring, by ring⟩,
      by ring, by ring⟩
  refine ⟨fun lon_c lat_c w h θ => length_mySlitVertices lon_c lat_c w h θ 1,
    hcorners, ?_⟩
  unfold mySlitVertices
  rw [hcorners 10 20 2 4]
  simp [rotateAbout_zero]
  norm_num
